import Mathlib

/-!
# Verification of the interactive annotation editing engine

Shallow embedding of the screenshot annotation editor from `src/temp.rs`
(drawing-element lifecycle, selection/handle drags, undo/redo history,
crop-region moves, hit testing and the geometry cache).

Coordinates of the source (`f32`) are modelled over `ℚ`; every comparison,
clamp and arithmetic operation of the source is translated literally.  The
source compares `sqrt (dx*dx + dy*dy)` against nonnegative thresholds in two
places; since `sqrt x ≥ c ↔ x ≥ c²` and `sqrt x ≤ c ↔ x ≤ c²` for `c ≥ 0`,
those predicates are embedded as comparisons of the squared length against
the squared threshold.
-/

namespace Screenshot

/-- Screen-space point, `(f32, f32)` in the source. -/
abbrev Pt := ℚ × ℚ

/-- RGB colour, `[f32; 3]` in the source. -/
structure Color where
  r : ℚ
  g : ℚ
  b : ℚ
deriving DecidableEq

/-- `const RED: [f32; 3] = [1.0, 0.0, 0.0];` -/
def RED : Color := ⟨1, 0, 0⟩

/-- `const MIN_ELLIPSE_RADIUS: f32 = 5.0;` -/
def MIN_ELLIPSE_RADIUS : ℚ := 5

/-- `const MIN_RECTANGLE_SIZE: f32 = 5.0;` -/
def MIN_RECTANGLE_SIZE : ℚ := 5

/-- `const MIN_SAVE_SIZE: f32 = 20.0;` -/
def MIN_SAVE_SIZE : ℚ := 20

/-- `const MIN_SAVE_RADIUS: f32 = 10.0;` -/
def MIN_SAVE_RADIUS : ℚ := 10

/-- `const MIN_ARROW_LENGTH: f32 = 30.0;` -/
def MIN_ARROW_LENGTH : ℚ := 30

/-- `const MIN_BOX_SIZE: f32 = 20.0;` -/
def MIN_BOX_SIZE : ℚ := 20

/-- `const MAX_UNDO_STEPS: usize = 50;` (local to `save_state_for_undo`). -/
def MAX_UNDO_STEPS : ℕ := 50

/-- `enum DrawingElement` from `src/temp.rs` (`end` is a Lean keyword, so the
rectangle/arrow end point is called `endp`). -/
inductive DrawingElement where
  | rectangle (start endp : Pt) (color : Color) (thickness : ℚ)
  | circle (center : Pt) (radiusX radiusY : ℚ) (color : Color) (thickness : ℚ)
  | arrow (start endp : Pt) (color : Color) (thickness : ℚ)
  | pen (points : List Pt) (color : Color) (thickness : ℚ)
  | text (position : Pt) (content : String) (color : Color) (fontSize : ℚ)
      (isEditing : Bool) (rotation : Option ℚ)
deriving DecidableEq

/-- `enum DrawingState`. -/
inductive DrawingState where
  | idle
  | drawing
  | editing
deriving DecidableEq

/-- `enum Tool` (only the drawing-related variants matter for the element
lifecycle; `Undo`/`Save`/`Exit`/`Complete` never create an element). -/
inductive Tool where
  | none
  | rectangle
  | circle
  | arrow
  | pen
  | text
deriving DecidableEq

/-- `enum HandleType`. -/
inductive HandleType where
  | topLeft
  | topCenter
  | topRight
  | middleLeft
  | middleRight
  | bottomLeft
  | bottomCenter
  | bottomRight
  | arrowStart
  | arrowEnd
  | move
  | rotate
deriving DecidableEq

/-- The slice of the mutable `App` state that the element lifecycle and the
undo/redo history read or write.  The Rust `Vec` stacks push and pop at the
back and drop the oldest entry at the front; a Lean list models a stack with
its head as the top (the Rust back), so Rust `push` is `::`, Rust `pop` takes
the head, and Rust `remove(0)` is `dropLast`.  Presentation-only fields
(`needs_redraw`, caches, selection handles) are omitted; the geometry cache
is modelled separately below. -/
structure App where
  currentBoxCoords : Option (ℚ × ℚ × ℚ × ℚ)
  currentDrawing : Option DrawingElement
  drawingState : DrawingState
  drawingStartPos : Option Pt
  drawingElements : List DrawingElement
  undoStack : List (List DrawingElement)
  redoStack : List (List DrawingElement)
  textInputActive : Bool
  currentTextInput : String
deriving DecidableEq

/-- `fn is_point_in_screenshot_area`. -/
def isPointInScreenshotArea (s : App) (x y : ℚ) : Bool :=
  match s.currentBoxCoords with
  | some (minX, minY, maxX, maxY) =>
      decide (minX ≤ x) && decide (x ≤ maxX) && decide (minY ≤ y) && decide (y ≤ maxY)
  | none => false

/-- `fn is_element_large_enough`.  The arrow case compares
`sqrt (dx*dx+dy*dy) ≥ MIN_ARROW_LENGTH` in the source, embedded squared. -/
def isElementLargeEnough : DrawingElement → Bool
  | .rectangle start endp _ _ =>
      decide (MIN_SAVE_SIZE ≤ |endp.1 - start.1|) && decide (MIN_SAVE_SIZE ≤ |endp.2 - start.2|)
  | .circle _ radiusX radiusY _ _ =>
      decide (MIN_SAVE_RADIUS ≤ radiusX) && decide (MIN_SAVE_RADIUS ≤ radiusY)
  | .arrow start endp _ _ =>
      let dx := endp.1 - start.1
      let dy := endp.2 - start.2
      decide (MIN_ARROW_LENGTH * MIN_ARROW_LENGTH ≤ dx * dx + dy * dy)
  | .text .. => true
  | .pen points _ _ => !points.isEmpty

/-- `fn save_state_for_undo`: drop the oldest snapshot past the cap, push a
clone of the committed elements, clear the redo stack. -/
def saveStateForUndo (s : App) : App :=
  let trimmed :=
    if MAX_UNDO_STEPS ≤ s.undoStack.length then s.undoStack.dropLast else s.undoStack
  { s with undoStack := s.drawingElements :: trimmed, redoStack := [] }

/-- `fn undo`: no-op on an empty stack; otherwise push the live collection to
the redo stack, restore the popped snapshot, and deselect (which resets the
drawing state to `Idle`). -/
def undo (s : App) : App :=
  match s.undoStack with
  | [] => s
  | previousState :: rest =>
      { s with
        drawingElements := previousState
        undoStack := rest
        redoStack := s.drawingElements :: s.redoStack
        drawingState := .idle }

/-- `fn redo`: symmetric to `undo` on the redo stack. -/
def redo (s : App) : App :=
  match s.redoStack with
  | [] => s
  | nextState :: rest =>
      { s with
        drawingElements := nextState
        redoStack := rest
        undoStack := s.drawingElements :: s.undoStack
        drawingState := .idle }

/-- `fn finish_current_drawing`: takes the in-progress element; if it is too
small the element is dropped; otherwise a snapshot is pushed and the element
is appended to the committed collection (`select_element` then marks it
selected, but the trailing statements of the function reset the drawing state
to `Idle` either way). -/
def finishCurrentDrawing (s : App) : App :=
  match s.currentDrawing with
  | none => { s with drawingState := .idle, drawingStartPos := none }
  | some drawing =>
      if !isElementLargeEnough drawing then
        { s with
          currentDrawing := none
          drawingState := .idle
          drawingStartPos := none }
      else
        let s' := saveStateForUndo s
        { s' with
          currentDrawing := none
          drawingElements := s'.drawingElements ++ [drawing]
          drawingState := .idle
          drawingStartPos := none }

/-- `fn start_drawing`: outside the committed crop region this is a no-op;
inside, the drawing state and anchor are set first, and each tool creates its
in-progress element (`Tool::None` falls through having already set the
state, matching the early `return` in the source). -/
def startDrawing (s : App) (tool : Tool) (x y : ℚ) : App :=
  if !isPointInScreenshotArea s x y then s
  else
    let s := { s with drawingState := .drawing, drawingStartPos := some (x, y) }
    match tool with
    | .none => s
    | .rectangle =>
        { s with currentDrawing := some (.rectangle (x, y) (x, y) RED 2) }
    | .circle =>
        { s with currentDrawing := some (.circle (x, y) 0 0 RED 2) }
    | .arrow =>
        { s with currentDrawing := some (.arrow (x, y) (x, y) RED 2) }
    | .pen =>
        { s with currentDrawing := some (.pen [(x, y)] RED 2) }
    | .text =>
        { s with
          currentDrawing := some (.text (x, y) "" RED 24 true none)
          textInputActive := true
          currentTextInput := "" }

/-- `fn update_drawing`: only while in `Drawing` state and inside the crop
region; the rectangle/arrow end point tracks the pointer, the ellipse radii
are the absolute pointer offsets from the centre, the pen appends every
sample unconditionally, text ignores drags. -/
def updateDrawing (s : App) (x y : ℚ) : App :=
  if s.drawingState ≠ DrawingState.drawing then s
  else if !isPointInScreenshotArea s x y then s
  else
    match s.currentDrawing with
    | some (.rectangle start _ c t) =>
        { s with currentDrawing := some (.rectangle start (x, y) c t) }
    | some (.circle center _ _ c t) =>
        { s with
          currentDrawing :=
            some (.circle center |x - center.1| |y - center.2| c t) }
    | some (.arrow start _ c t) =>
        { s with currentDrawing := some (.arrow start (x, y) c t) }
    | some (.pen points c t) =>
        { s with currentDrawing := some (.pen (points ++ [(x, y)]) c t) }
    | some (.text ..) => s
    | none => s

/-- `fn finish_text_input`: stores the typed text into the in-progress text
element and ends editing; the element is committed through
`finish_current_drawing` only when the trimmed input is non-empty, otherwise
the in-progress element is dropped. -/
def finishTextInput (s : App) : App :=
  let s :=
    match s.currentDrawing with
    | some (.text position _ c fontSize _ rotation) =>
        { s with
          currentDrawing :=
            some (.text position s.currentTextInput c fontSize false rotation) }
    | _ => s
  let s :=
    if !s.currentTextInput.trim.isEmpty then finishCurrentDrawing s
    else { s with currentDrawing := none, drawingState := .idle }
  { s with textInputActive := false, currentTextInput := "" }

/-- A complete rectangle-drawing drag: press at `p₀`, a stream of pointer
moves, then release (`finish_current_drawing`). -/
def runRectDrag (s₀ : App) (p₀ : Pt) (moves : List Pt) : App :=
  finishCurrentDrawing
    (moves.foldl (fun s p => updateDrawing s p.1 p.2) (startDrawing s₀ Tool.rectangle p₀.1 p₀.2))

/-- The event loop commits the in-progress element on pointer release through
`finish_current_drawing` for every tool except `Text`
(`window_event`, `ElementState::Released`); a text element is committed by
`finish_text_input` (Enter / click elsewhere). -/
def commitInProgress (s : App) : App :=
  match s.currentDrawing with
  | some (.text ..) => finishTextInput s
  | _ => finishCurrentDrawing s

/-- A fresh editor state with a finalized `(0,0)-(300,200)` crop region and no
committed elements. -/
def app₀ : App :=
  { currentBoxCoords := some (0, 0, 300, 200)
    currentDrawing := none
    drawingState := .idle
    drawingStartPos := none
    drawingElements := []
    undoStack := []
    redoStack := []
    textInputActive := false
    currentTextInput := "" }

/-! ## Basic lemmas about the element lifecycle -/

lemma startDrawing_drawingElements (s : App) (tool : Tool) (x y : ℚ) :
    (startDrawing s tool x y).drawingElements = s.drawingElements := by
  unfold startDrawing
  split
  · rfl
  · cases tool <;> rfl

lemma updateDrawing_drawingElements (s : App) (x y : ℚ) :
    (updateDrawing s x y).drawingElements = s.drawingElements := by
  unfold updateDrawing
  split
  · rfl
  · split
    · rfl
    · split <;> rfl

lemma foldl_updateDrawing_drawingElements (moves : List Pt) (s : App) :
    (moves.foldl (fun s p => updateDrawing s p.1 p.2) s).drawingElements =
      s.drawingElements := by
  induction moves generalizing s with
  | nil => rfl
  | cons p rest ih => rw [List.foldl_cons, ih, updateDrawing_drawingElements]

lemma finishCurrentDrawing_drawingElements (s : App) (e : DrawingElement)
    (h : s.currentDrawing = some e) :
    (finishCurrentDrawing s).drawingElements =
      if isElementLargeEnough e then s.drawingElements ++ [e]
      else s.drawingElements := by
  unfold finishCurrentDrawing
  rw [h]
  cases hle : isElementLargeEnough e <;> simp [hle, saveStateForUndo]

lemma finishCurrentDrawing_currentDrawing (s : App) :
    (finishCurrentDrawing s).currentDrawing = none := by
  unfold finishCurrentDrawing
  cases s.currentDrawing with
  | none => rfl
  | some e => cases hle : isElementLargeEnough e <;> simp [hle, saveStateForUndo]

/-! ## C1 — rectangle drag-commit: normalization and minimum size -/

/-- C1, counterexample.  Drawing a rectangle by dragging from `(100,100)`
up-left to `(50,50)` and releasing is accepted by `commit()`
(`finish_current_drawing`), but the stored element keeps `start = (100,100)`
and `end = (50,50)`: `finish_current_drawing` never calls
`normalize_rectangle`, so the claimed invariant `start.x ≤ end.x ∧
start.y ≤ end.y ∧ end − start ≥ MIN_SAVE_SIZE on both axes` fails on the
committed element. -/
theorem c1_commit_normalization_counterexample :
    (runRectDrag app₀ (100, 100) [(50, 50)]).drawingElements
        = [DrawingElement.rectangle (100, 100) (50, 50) RED 2]
      ∧ ¬ ((100 : ℚ) ≤ 50 ∧ (100 : ℚ) ≤ 50
            ∧ MIN_SAVE_SIZE ≤ 50 - 100 ∧ MIN_SAVE_SIZE ≤ 50 - 100) := by
  constructor
  · norm_num [runRectDrag, startDrawing, updateDrawing, finishCurrentDrawing,
      isPointInScreenshotArea, isElementLargeEnough, saveStateForUndo, app₀,
      MIN_SAVE_SIZE, RED]
  · norm_num [MIN_SAVE_SIZE]

/-- C1, amended.  For every drag sequence that draws a rectangle and ends with
`commit()` accepting it into the committed collection, the stored element
satisfies `|end.x − start.x| ≥ MIN_SAVE_SIZE` and
`|end.y − start.y| ≥ MIN_SAVE_SIZE`; the orientation `start ≤ end` is *not*
established by commit (see the counterexample), only the absolute sizes
are. -/
theorem c1_commit_min_size_amended (s₀ : App) (p₀ : Pt) (moves : List Pt)
    (start endp : Pt) (c : Color) (t : ℚ)
    (haccept : (runRectDrag s₀ p₀ moves).drawingElements =
      s₀.drawingElements ++ [DrawingElement.rectangle start endp c t]) :
    MIN_SAVE_SIZE ≤ |endp.1 - start.1| ∧ MIN_SAVE_SIZE ≤ |endp.2 - start.2| := by
  unfold runRectDrag at haccept
  set s₁ := (moves.foldl (fun s p => updateDrawing s p.1 p.2)
    (startDrawing s₀ Tool.rectangle p₀.1 p₀.2)) with hs₁
  have hbase : s₁.drawingElements = s₀.drawingElements := by
    rw [hs₁, foldl_updateDrawing_drawingElements, startDrawing_drawingElements]
  cases hcur : s₁.currentDrawing with
  | none =>
      exfalso
      have hfe : (finishCurrentDrawing s₁).drawingElements = s₁.drawingElements := by
        unfold finishCurrentDrawing
        rw [hcur]
      rw [hfe, hbase] at haccept
      simp at haccept
  | some e =>
      rw [finishCurrentDrawing_drawingElements s₁ e hcur, hbase] at haccept
      by_cases hle : isElementLargeEnough e = true
      · rw [if_pos hle] at haccept
        have he : e = DrawingElement.rectangle start endp c t := by
          simpa using haccept
        rw [he] at hle
        unfold isElementLargeEnough at hle
        simp only [Bool.and_eq_true, decide_eq_true_eq] at hle
        exact hle
      · rw [if_neg hle] at haccept
        exact absurd haccept (by simp)

/-- Witness for `c1_commit_min_size_amended`: the concrete accepted drag from
`(100,100)` to `(50,50)` has absolute extents `50 ≥ MIN_SAVE_SIZE` on both
axes. -/
theorem c1_commit_min_size_amended_witness :
    MIN_SAVE_SIZE ≤ |(50 : ℚ) - 100| ∧ MIN_SAVE_SIZE ≤ |(50 : ℚ) - 100| :=
  c1_commit_min_size_amended app₀ (100, 100) [(50, 50)] (100, 100) (50, 50)
    RED 2 (by
      norm_num [runRectDrag, startDrawing, updateDrawing, finishCurrentDrawing,
        isPointInScreenshotArea, isElementLargeEnough, saveStateForUndo, app₀,
        MIN_SAVE_SIZE, RED])

/-! ## C2 — undo/redo round trip -/

/-- C2.  Whenever the undo stack is non-empty, `undo()` followed by `redo()`
restores the committed element collection to exactly the state immediately
before the `undo()`: `undo` pushes the live collection onto the redo stack
and `redo` pops that very entry back. -/
theorem c2_undo_redo_roundtrip (s : App) (h : s.undoStack ≠ []) :
    (redo (undo s)).drawingElements = s.drawingElements := by
  cases hs : s.undoStack with
  | nil => exact absurd hs h
  | cons previousState rest =>
      unfold undo
      rw [hs]
      unfold redo
      rfl

/-- Witness for `c2_undo_redo_roundtrip` at a state holding one committed
rectangle with one undo snapshot. -/
theorem c2_undo_redo_roundtrip_witness :
    (redo (undo
        { app₀ with
          drawingElements := [DrawingElement.rectangle (70, 60) (170, 130) RED 2]
          undoStack := [[DrawingElement.rectangle (50, 50) (150, 120) RED 2]] })).drawingElements
      = [DrawingElement.rectangle (70, 60) (170, 130) RED 2] :=
  c2_undo_redo_roundtrip _ (by simp)

/-! ## C3 — the undo stack never exceeds the 50-snapshot cap -/

/-- The three history operations of the claim. -/
inductive HistOp where
  | save
  | undo
  | redo

/-- Dispatch a history operation to the corresponding source function. -/
def applyHistOp (s : App) : HistOp → App
  | .save => saveStateForUndo s
  | .undo => undo s
  | .redo => redo s

/-- `save_state_for_undo` keeps `undo + redo ≤ cap`, `undo` and `redo` move
one snapshot between the stacks, so the total never grows past the cap. -/
lemma applyHistOp_stack_sum (s : App) (op : HistOp)
    (h : s.undoStack.length + s.redoStack.length ≤ MAX_UNDO_STEPS) :
    (applyHistOp s op).undoStack.length + (applyHistOp s op).redoStack.length
      ≤ MAX_UNDO_STEPS := by
  cases op with
  | save =>
      simp only [MAX_UNDO_STEPS] at h ⊢
      simp only [applyHistOp, saveStateForUndo, MAX_UNDO_STEPS]
      split
      · next hge => simp [List.length_dropLast]; omega
      · next hlt => simp; omega
  | undo =>
      cases hs : s.undoStack with
      | nil => simpa [applyHistOp, undo, hs] using h
      | cons p rest =>
          simp only [applyHistOp, undo, hs]
          simp only [List.length_cons] at h ⊢
          rw [hs] at h
          simp only [List.length_cons] at h
          omega
  | redo =>
      cases hs : s.redoStack with
      | nil => simpa [applyHistOp, redo, hs] using h
      | cons p rest =>
          simp only [applyHistOp, redo, hs]
          simp only [List.length_cons] at h ⊢
          rw [hs] at h
          simp only [List.length_cons] at h
          omega

/-- C3.  Starting from empty history stacks, after any sequence of
`save_state_for_undo` / `undo` / `redo` operations the undo stack holds at
most `MAX_UNDO_STEPS = 50` snapshots. -/
theorem c3_undo_stack_cap (s₀ : App) (ops : List HistOp)
    (h₀ : s₀.undoStack = []) (h₁ : s₀.redoStack = []) :
    (ops.foldl applyHistOp s₀).undoStack.length ≤ MAX_UNDO_STEPS := by
  have key : ∀ (l : List HistOp) (s : App),
      s.undoStack.length + s.redoStack.length ≤ MAX_UNDO_STEPS →
      (l.foldl applyHistOp s).undoStack.length
        + (l.foldl applyHistOp s).redoStack.length ≤ MAX_UNDO_STEPS := by
    intro l
    induction l with
    | nil => intro s hs; simpa using hs
    | cons op rest ih =>
        intro s hs
        rw [List.foldl_cons]
        exact ih _ (applyHistOp_stack_sum s op hs)
  have := key ops s₀ (by simp [h₀, h₁, MAX_UNDO_STEPS])
  omega

/-- Witness for `c3_undo_stack_cap`: a burst of 52 snapshots followed by an
undo and a redo still leaves at most 50 entries. -/
theorem c3_undo_stack_cap_witness :
    ((List.replicate 52 HistOp.save ++ [HistOp.undo, HistOp.redo]).foldl
        applyHistOp app₀).undoStack.length ≤ MAX_UNDO_STEPS :=
  c3_undo_stack_cap app₀ _ rfl rfl

/-! ## C4 — commit persists exactly the per-variant minimum-size rule -/

lemma finishCurrentDrawing_append_iff (s : App) (e : DrawingElement)
    (h : s.currentDrawing = some e) :
    ((finishCurrentDrawing s).drawingElements = s.drawingElements ++ [e]) ↔
      isElementLargeEnough e = true := by
  rw [finishCurrentDrawing_drawingElements s e h]
  by_cases hle : isElementLargeEnough e = true
  · simp [hle]
  · simp [hle]

/-- C4.  The commit operation appends the in-progress element to the
committed collection exactly when the per-variant minimum-size rule holds
(Rectangle: both absolute extents `≥ MIN_SAVE_SIZE`; Ellipse: both radii
`≥ MIN_SAVE_RADIUS`; Arrow: squared endpoint distance
`≥ MIN_ARROW_LENGTH²`, i.e. distance `≥ MIN_ARROW_LENGTH`; Freehand: at
least one point; Text, whose commit path is `finish_text_input`: trimmed
typed content non-empty — the committed text carries the typed input as its
content).  Otherwise the element is discarded and the committed collection
is unchanged: in every case the in-progress slot is emptied and the
collection either stays as it was or grows by exactly the one element. -/
theorem c4_commit_persistence_rule (s : App) (e : DrawingElement)
    (h : s.currentDrawing = some e) :
    (∀ start endp c t, e = DrawingElement.rectangle start endp c t →
        (((commitInProgress s).drawingElements = s.drawingElements ++ [e]) ↔
          MIN_SAVE_SIZE ≤ |endp.1 - start.1| ∧ MIN_SAVE_SIZE ≤ |endp.2 - start.2|))
    ∧ (∀ center rx ry c t, e = DrawingElement.circle center rx ry c t →
        (((commitInProgress s).drawingElements = s.drawingElements ++ [e]) ↔
          MIN_SAVE_RADIUS ≤ rx ∧ MIN_SAVE_RADIUS ≤ ry))
    ∧ (∀ start endp c t, e = DrawingElement.arrow start endp c t →
        (((commitInProgress s).drawingElements = s.drawingElements ++ [e]) ↔
          MIN_ARROW_LENGTH * MIN_ARROW_LENGTH ≤
            (endp.1 - start.1) * (endp.1 - start.1)
              + (endp.2 - start.2) * (endp.2 - start.2)))
    ∧ (∀ points c t, e = DrawingElement.pen points c t →
        (((commitInProgress s).drawingElements = s.drawingElements ++ [e]) ↔
          points ≠ []))
    ∧ (∀ position content c fs ed rot,
        e = DrawingElement.text position content c fs ed rot →
        (((commitInProgress s).drawingElements = s.drawingElements
            ++ [DrawingElement.text position s.currentTextInput c fs false rot]) ↔
          s.currentTextInput.trim.isEmpty = false))
    ∧ (commitInProgress s).currentDrawing = none
    ∧ ((commitInProgress s).drawingElements = s.drawingElements
        ∨ ∃ e', (commitInProgress s).drawingElements = s.drawingElements ++ [e']) := by
  refine ⟨?_, ?_, ?_, ?_, ?_, ?_, ?_⟩
  · intro start endp c t he
    subst he
    simp only [commitInProgress, h]
    rw [finishCurrentDrawing_append_iff s _ h]
    simp [isElementLargeEnough]
  · intro center rx ry c t he
    subst he
    simp only [commitInProgress, h]
    rw [finishCurrentDrawing_append_iff s _ h]
    simp [isElementLargeEnough]
  · intro start endp c t he
    subst he
    simp only [commitInProgress, h]
    rw [finishCurrentDrawing_append_iff s _ h]
    simp [isElementLargeEnough]
  · intro points c t he
    subst he
    simp only [commitInProgress, h]
    rw [finishCurrentDrawing_append_iff s _ h]
    simp [isElementLargeEnough]
  · intro position content c fs ed rot he
    subst he
    simp only [commitInProgress, h]
    unfold finishTextInput
    rw [h]
    cases ht : s.currentTextInput.trim.isEmpty with
    | false =>
        simp only [ht, Bool.not_false, if_pos]
        rw [finishCurrentDrawing_drawingElements _
          (DrawingElement.text position s.currentTextInput c fs false rot) rfl]
        simp [isElementLargeEnough]
    | true =>
        simp only [ht, Bool.not_true, if_neg]
        simp
  · cases he : s.currentDrawing with
    | none => simp [commitInProgress, he, finishCurrentDrawing_currentDrawing]
    | some e' =>
        cases e' with
        | text position content c fs ed rot =>
            simp only [commitInProgress, he]
            unfold finishTextInput
            rw [he]
            cases ht : s.currentTextInput.trim.isEmpty with
            | false =>
                simp only [ht, Bool.not_false, if_pos]
                simp [finishCurrentDrawing_currentDrawing]
            | true => simp [ht]
        | rectangle start endp c t =>
            simp [commitInProgress, he, finishCurrentDrawing_currentDrawing]
        | circle center rx ry c t =>
            simp [commitInProgress, he, finishCurrentDrawing_currentDrawing]
        | arrow start endp c t =>
            simp [commitInProgress, he, finishCurrentDrawing_currentDrawing]
        | pen points c t =>
            simp [commitInProgress, he, finishCurrentDrawing_currentDrawing]
  · cases he : s.currentDrawing with
    | none =>
        left
        simp only [commitInProgress, he]
        unfold finishCurrentDrawing
        rw [he]
    | some e' =>
        cases e' with
        | text position content c fs ed rot =>
            simp only [commitInProgress, he]
            unfold finishTextInput
            rw [he]
            cases ht : s.currentTextInput.trim.isEmpty with
            | false =>
                simp only [ht, Bool.not_false, if_pos]
                rw [finishCurrentDrawing_drawingElements _
                  (DrawingElement.text position s.currentTextInput c fs false rot) rfl]
                right
                exact ⟨DrawingElement.text position s.currentTextInput c fs false rot,
                  by simp [isElementLargeEnough]⟩
            | true =>
                left
                simp [ht]
        | rectangle start endp c t =>
            simp only [commitInProgress, he]
            rw [finishCurrentDrawing_drawingElements _ _ he]
            by_cases hle : isElementLargeEnough (DrawingElement.rectangle start endp c t) = true
            · right; exact ⟨DrawingElement.rectangle start endp c t, by simp [hle]⟩
            · left; simp [hle]
        | circle center rx ry c t =>
            simp only [commitInProgress, he]
            rw [finishCurrentDrawing_drawingElements _ _ he]
            by_cases hle : isElementLargeEnough (DrawingElement.circle center rx ry c t) = true
            · right; exact ⟨DrawingElement.circle center rx ry c t, by simp [hle]⟩
            · left; simp [hle]
        | arrow start endp c t =>
            simp only [commitInProgress, he]
            rw [finishCurrentDrawing_drawingElements _ _ he]
            by_cases hle : isElementLargeEnough (DrawingElement.arrow start endp c t) = true
            · right; exact ⟨DrawingElement.arrow start endp c t, by simp [hle]⟩
            · left; simp [hle]
        | pen points c t =>
            simp only [commitInProgress, he]
            rw [finishCurrentDrawing_drawingElements _ _ he]
            by_cases hle : isElementLargeEnough (DrawingElement.pen points c t) = true
            · right; exact ⟨DrawingElement.pen points c t, by simp [hle]⟩
            · left; simp [hle]

/-- Witness for `c4_commit_persistence_rule`: a `150×70` rectangle inside the
crop region commits (iff instantiated at a concrete state), and a tiny
`2×1`-extent ellipse is discarded. -/
theorem c4_commit_persistence_rule_witness :
    ((commitInProgress
          { app₀ with
            currentDrawing :=
              some (DrawingElement.rectangle (50, 50) (150, 120) RED 2) }).drawingElements
        = [DrawingElement.rectangle (50, 50) (150, 120) RED 2])
      ∧ ((commitInProgress
          { app₀ with
            currentDrawing := some (DrawingElement.circle (10, 10) 2 1 RED 2) }).drawingElements
        = []) := by
  constructor
  · have hmain := (c4_commit_persistence_rule
      { app₀ with
        currentDrawing := some (DrawingElement.rectangle (50, 50) (150, 120) RED 2) }
      (DrawingElement.rectangle (50, 50) (150, 120) RED 2) rfl).1
      (50, 50) (150, 120) RED 2 rfl
    have : (commitInProgress
        { app₀ with
          currentDrawing :=
            some (DrawingElement.rectangle (50, 50) (150, 120) RED 2) }).drawingElements
        = app₀.drawingElements ++ [DrawingElement.rectangle (50, 50) (150, 120) RED 2] := by
      rw [hmain]
      constructor <;> norm_num [MIN_SAVE_SIZE]
    simpa [app₀] using this
  · have hmain := (c4_commit_persistence_rule
      { app₀ with
        currentDrawing := some (DrawingElement.circle (10, 10) 2 1 RED 2) }
      (DrawingElement.circle (10, 10) 2 1 RED 2) rfl).2.2.2.2.2.2
    rcases hmain with hunch | ⟨e', happ⟩
    · simpa [app₀] using hunch
    · exfalso
      have hiff := (c4_commit_persistence_rule
        { app₀ with
          currentDrawing := some (DrawingElement.circle (10, 10) 2 1 RED 2) }
        (DrawingElement.circle (10, 10) 2 1 RED 2) rfl).2.1
        (10, 10) 2 1 RED 2 rfl
      have hle : ¬ (MIN_SAVE_RADIUS ≤ (2 : ℚ) ∧ MIN_SAVE_RADIUS ≤ (1 : ℚ)) := by
        norm_num [MIN_SAVE_RADIUS]
      have happ' : (commitInProgress
          { app₀ with
            currentDrawing := some (DrawingElement.circle (10, 10) 2 1 RED 2) }).drawingElements
          ≠ app₀.drawingElements ++ [DrawingElement.circle (10, 10) 2 1 RED 2] := by
        intro hc
        exact hle (hiff.mp hc)
      have hfin := finishCurrentDrawing_drawingElements
        { app₀ with currentDrawing := some (DrawingElement.circle (10, 10) 2 1 RED 2) }
        (DrawingElement.circle (10, 10) 2 1 RED 2) rfl
      have hsmall : isElementLargeEnough (DrawingElement.circle (10, 10) 2 1 RED 2) = false := by
        simp [isElementLargeEnough]
        norm_num [MIN_SAVE_RADIUS]
      rw [hsmall] at hfin
      simp only [commitInProgress] at happ
      simp only [Bool.false_eq_true, if_false] at hfin
      rw [hfin] at happ
      simp [app₀] at happ

/-! ## C5 — ellipse radii stay positive under handle drags -/

/-- The `DrawingElement::Circle` arms of the `match` in `fn handle_drag`:
corner handles set both radii to the absolute pointer offset from the centre
floored at `MIN_ELLIPSE_RADIUS` (`(pos - center).abs().max(MIN_ELLIPSE_RADIUS)`),
edge-midpoint handles set only their axis, all other handle types leave an
ellipse unchanged.  (The dynamic retyping step applies only when the dragged
element is a rectangle, so the handle type is used as-is here.) -/
def ellipseHandleDrag (ht : HandleType) (pos center : Pt) (radiusX radiusY : ℚ) :
    ℚ × ℚ :=
  match ht with
  | .topLeft | .topRight | .bottomLeft | .bottomRight =>
      (max |pos.1 - center.1| MIN_ELLIPSE_RADIUS,
       max |pos.2 - center.2| MIN_ELLIPSE_RADIUS)
  | .topCenter | .bottomCenter =>
      (radiusX, max |pos.2 - center.2| MIN_ELLIPSE_RADIUS)
  | .middleLeft | .middleRight =>
      (max |pos.1 - center.1| MIN_ELLIPSE_RADIUS, radiusY)
  | _ => (radiusX, radiusY)

/-- A handle-drag sequence on a selected ellipse: each step is the dragged
handle's type together with the pointer position. -/
def runEllipseDrags (center : Pt) (drags : List (HandleType × Pt)) (r : ℚ × ℚ) :
    ℚ × ℚ :=
  drags.foldl (fun r d => ellipseHandleDrag d.1 d.2 center r.1 r.2) r

lemma ellipseHandleDrag_pos (ht : HandleType) (pos center : Pt) (rx ry : ℚ)
    (hrx : 0 < rx) (hry : 0 < ry) :
    0 < (ellipseHandleDrag ht pos center rx ry).1
      ∧ 0 < (ellipseHandleDrag ht pos center rx ry).2 := by
  have hmin : (0 : ℚ) < MIN_ELLIPSE_RADIUS := by norm_num [MIN_ELLIPSE_RADIUS]
  cases ht <;>
    exact ⟨by first | exact hrx | exact lt_max_of_lt_right hmin,
           by first | exact hry | exact lt_max_of_lt_right hmin⟩

/-- C5.  For every handle-drag sequence on a selected ellipse with positive
radii (any committed ellipse has radii `≥ MIN_SAVE_RADIUS > 0`), both radii
remain strictly positive after every `handle_drag` call: every update floors
the written radius at `MIN_ELLIPSE_RADIUS = 5` and an untouched radius keeps
its previous positive value. -/
theorem c5_ellipse_radius_floor (center : Pt) (drags : List (HandleType × Pt))
    (rx ry : ℚ) (hrx : 0 < rx) (hry : 0 < ry) :
    0 < (runEllipseDrags center drags (rx, ry)).1
      ∧ 0 < (runEllipseDrags center drags (rx, ry)).2 := by
  induction drags generalizing rx ry with
  | nil => exact ⟨hrx, hry⟩
  | cons d rest ih =>
      have hstep := ellipseHandleDrag_pos d.1 d.2 center rx ry hrx hry
      have : runEllipseDrags center (d :: rest) (rx, ry)
          = runEllipseDrags center rest (ellipseHandleDrag d.1 d.2 center rx ry) := by
        simp [runEllipseDrags]
      rw [this]
      exact ih _ _ hstep.1 hstep.2

/-- Witness for `c5_ellipse_radius_floor`: a committed `40×30` ellipse dragged
by its right edge-midpoint handle onto the centre, then by a corner handle. -/
theorem c5_ellipse_radius_floor_witness :
    0 < (runEllipseDrags (100, 100)
          [(HandleType.middleRight, (100, 100)), (HandleType.topLeft, (100, 100))]
          (40, 30)).1
      ∧ 0 < (runEllipseDrags (100, 100)
          [(HandleType.middleRight, (100, 100)), (HandleType.topLeft, (100, 100))]
          (40, 30)).2 :=
  c5_ellipse_radius_floor (100, 100) _ 40 30 (by norm_num) (by norm_num)

/-! ## C6 — corner handles retype from the pointer's quadrant -/

/-- `fn get_dynamic_handle_type_static`: for the four corner handle types the
effective type is the quadrant of `pos` relative to the rectangle centre
(`is_left = pos.0 < center_x`, `is_top = pos.1 < center_y`); edge-midpoint
and other handle types are returned unchanged.  (The source receives the full
`Handle` struct but reads only its `handle_type`.) -/
def getDynamicHandleTypeStatic (original : HandleType) (pos start endp : Pt) :
    HandleType :=
  match original with
  | .topLeft | .topRight | .bottomLeft | .bottomRight =>
      let centerX := (start.1 + endp.1) / 2
      let centerY := (start.2 + endp.2) / 2
      match decide (pos.1 < centerX), decide (pos.2 < centerY) with
      | true, true => .topLeft
      | false, true => .topRight
      | true, false => .bottomLeft
      | false, false => .bottomRight
  | t => t

/-- `fn normalize_rectangle`: reorder the coordinates so `start` is top-left
and `end` bottom-right, then expand each axis to `MIN_RECTANGLE_SIZE` keeping
the top-left corner fixed. -/
def normalizeRectangle (start endp : Pt) : Pt × Pt :=
  let left := min start.1 endp.1
  let right := max start.1 endp.1
  let top := min start.2 endp.2
  let bottom := max start.2 endp.2
  let width := max (right - left) MIN_RECTANGLE_SIZE
  let height := max (bottom - top) MIN_RECTANGLE_SIZE
  ((left, top), (left + width, top + height))

/-- One `handle_drag` step on a rectangle: the dragged handle is first
retyped by `get_dynamic_handle_type_static` (and the new type is stored back
into `dragging_handle`, returned here as the second component), then the arm
for the *new* type moves the corresponding corner/edge coordinates to the
pointer and renormalizes. -/
def rectHandleDrag (ht : HandleType) (pos start endp : Pt) :
    (Pt × Pt) × HandleType :=
  let newType := getDynamicHandleTypeStatic ht pos start endp
  let r :=
    match newType with
    | .topLeft => normalizeRectangle (pos.1, pos.2) endp
    | .topRight => normalizeRectangle (start.1, pos.2) (pos.1, endp.2)
    | .bottomLeft => normalizeRectangle (pos.1, start.2) (endp.1, pos.2)
    | .bottomRight => normalizeRectangle start (pos.1, pos.2)
    | .topCenter => normalizeRectangle (start.1, pos.2) endp
    | .bottomCenter => normalizeRectangle start (endp.1, pos.2)
    | .middleLeft => normalizeRectangle (pos.1, start.2) endp
    | .middleRight => normalizeRectangle start (pos.1, endp.2)
    | _ => (start, endp)
  (r, newType)

/-- The four corner handle types. -/
def isCornerHandle : HandleType → Bool
  | .topLeft | .topRight | .bottomLeft | .bottomRight => true
  | _ => false

/-- C6.  During a corner-handle drag on a rectangle the effective handle type
is recomputed on each call purely from the quadrant the pointer occupies
relative to the rectangle's current centre: (i) the whole drag step is
independent of which corner the drag started on, (ii) the stored effective
type is `bottomRight` exactly when the pointer is at or right of the centre x
and at or below the centre y, and (iii) dragging the top-left handle of
`(50,50)-(150,120)` to `(200,200)` applies bottom-right semantics (the
rectangle becomes `(50,50)-(200,200)` and the dragged handle becomes the
bottom-right handle for the rest of the drag). -/
theorem c6_dynamic_corner_retype (h₁ h₂ : HandleType) (pos start endp : Pt)
    (hc₁ : isCornerHandle h₁ = true) (hc₂ : isCornerHandle h₂ = true) :
    (rectHandleDrag h₁ pos start endp = rectHandleDrag h₂ pos start endp)
    ∧ ((rectHandleDrag h₁ pos start endp).2 = HandleType.bottomRight ↔
        (start.1 + endp.1) / 2 ≤ pos.1 ∧ (start.2 + endp.2) / 2 ≤ pos.2)
    ∧ rectHandleDrag HandleType.topLeft (200, 200) (50, 50) (150, 120)
        = (((50, 50), (200, 200)), HandleType.bottomRight) := by
  refine ⟨?_, ?_, ?_⟩
  · cases h₁ <;> cases h₂ <;> first | rfl | simp [isCornerHandle] at hc₁ hc₂
  · have hshape : (rectHandleDrag h₁ pos start endp).2
        = getDynamicHandleTypeStatic h₁ pos start endp := rfl
    rw [hshape]
    cases h₁ <;> simp only [isCornerHandle] at hc₁ <;> try cases hc₁
    all_goals
      · simp only [getDynamicHandleTypeStatic]
        by_cases hx : pos.1 < (start.1 + endp.1) / 2 <;>
          by_cases hy : pos.2 < (start.2 + endp.2) / 2 <;>
            simp [hx, hy, not_lt.mp, le_of_not_lt]
  · norm_num [rectHandleDrag, getDynamicHandleTypeStatic, normalizeRectangle,
      MIN_RECTANGLE_SIZE]

/-- Witness for `c6_dynamic_corner_retype`, instantiated for the top-left and
bottom-right corner handles at the scenario of the claim. -/
theorem c6_dynamic_corner_retype_witness :
    (rectHandleDrag HandleType.topLeft (200, 200) (50, 50) (150, 120)
        = rectHandleDrag HandleType.bottomRight (200, 200) (50, 50) (150, 120))
    ∧ ((rectHandleDrag HandleType.topLeft (200, 200) (50, 50) (150, 120)).2
          = HandleType.bottomRight ↔
        ((50 : ℚ) + 150) / 2 ≤ 200 ∧ ((50 : ℚ) + 120) / 2 ≤ 200)
    ∧ rectHandleDrag HandleType.topLeft (200, 200) (50, 50) (150, 120)
        = (((50, 50), (200, 200)), HandleType.bottomRight) :=
  c6_dynamic_corner_retype HandleType.topLeft HandleType.bottomRight
    (200, 200) (50, 50) (150, 120) rfl rfl

/-! ## C7 — moving the crop region preserves its size and stays on screen -/

/-- One axis of the `DragMode::Moving` branch of `window_event`: translate,
clamp to `[0, limit]`, and when a clamp is active slide the whole interval
along that boundary keeping its length (`box_width`/`box_height`). -/
def slide (lo hi offset limit : ℚ) : ℚ × ℚ :=
  let newLo := lo + offset
  let newHi := hi + offset
  let clampedLo := max newLo 0
  let clampedHi := min newHi limit
  if clampedHi = limit then (limit - (hi - lo), limit)
  else if clampedLo = 0 then (0, hi - lo)
  else (clampedLo, clampedHi)

/-- The full `DragMode::Moving` update: both axes use the same
translate-clamp-slide computation on the current box and screen size. -/
def moveBox (box : ℚ × ℚ × ℚ × ℚ) (offset : Pt) (screenW screenH : ℚ) :
    ℚ × ℚ × ℚ × ℚ :=
  let fx := slide box.1 box.2.2.1 offset.1 screenW
  let fy := slide box.2.1 box.2.2.2 offset.2 screenH
  (fx.1, fy.1, fx.2, fy.2)

lemma slide_spec (lo hi offset limit : ℚ) (h0 : 0 ≤ lo) (h1 : lo ≤ hi)
    (h2 : hi ≤ limit) :
    (slide lo hi offset limit).2 - (slide lo hi offset limit).1 = hi - lo
    ∧ 0 ≤ (slide lo hi offset limit).1
    ∧ (slide lo hi offset limit).2 ≤ limit
    ∧ (limit < hi + offset → (slide lo hi offset limit).2 = limit)
    ∧ (lo + offset < 0 → (slide lo hi offset limit).1 = 0) := by
  unfold slide
  dsimp only
  split_ifs with hA hB
  · have hge : limit ≤ hi + offset := inf_eq_right.mp hA
    refine ⟨?_, ?_, ?_, ?_, ?_⟩ <;> dsimp only
    · ring
    · linarith
    · exact le_refl _
    · intro _; rfl
    · intro hneg; exfalso; linarith
  · have hlt : hi + offset < limit := by
      rcases lt_or_le (hi + offset) limit with hcase | hcase
      · exact hcase
      · exact absurd (inf_eq_right.mpr hcase) hA
    have hle : lo + offset ≤ 0 := sup_eq_right.mp hB
    refine ⟨?_, ?_, ?_, ?_, ?_⟩ <;> dsimp only
    · ring
    · exact le_refl _
    · linarith
    · intro hcontra; exact absurd hcontra (not_lt.mpr hlt.le)
    · intro _; rfl
  · have hlt : hi + offset < limit := by
      rcases lt_or_le (hi + offset) limit with hcase | hcase
      · exact hcase
      · exact absurd (inf_eq_right.mpr hcase) hA
    have hpos : 0 < lo + offset := by
      rcases lt_or_le 0 (lo + offset) with hcase | hcase
      · exact hcase
      · exact absurd (sup_eq_right.mpr hcase) hB
    rw [sup_eq_left.mpr hpos.le, inf_eq_left.mpr hlt.le]
    refine ⟨?_, ?_, ?_, ?_, ?_⟩ <;> dsimp only
    · ring
    · exact hpos.le
    · exact hlt.le
    · intro hcontra; exact absurd hcontra (not_lt.mpr hlt.le)
    · intro hcontra; exact absurd hcontra (not_lt.mpr hpos.le)

/-- C7.  For every move step on an established crop region (a region inside
the `screenW × screenH` viewport), the moved region keeps exactly its width
and height and stays entirely inside the viewport; when the requested
translation would cross a boundary the region is clamped flush against that
boundary (it slides along it instead of resizing). -/
theorem c7_move_crop_region (bMinX bMinY bMaxX bMaxY ox oy screenW screenH : ℚ)
    (hx0 : 0 ≤ bMinX) (hx1 : bMinX ≤ bMaxX) (hx2 : bMaxX ≤ screenW)
    (hy0 : 0 ≤ bMinY) (hy1 : bMinY ≤ bMaxY) (hy2 : bMaxY ≤ screenH) :
    ((moveBox (bMinX, bMinY, bMaxX, bMaxY) (ox, oy) screenW screenH).2.2.1
        - (moveBox (bMinX, bMinY, bMaxX, bMaxY) (ox, oy) screenW screenH).1
      = bMaxX - bMinX)
    ∧ ((moveBox (bMinX, bMinY, bMaxX, bMaxY) (ox, oy) screenW screenH).2.2.2
        - (moveBox (bMinX, bMinY, bMaxX, bMaxY) (ox, oy) screenW screenH).2.1
      = bMaxY - bMinY)
    ∧ 0 ≤ (moveBox (bMinX, bMinY, bMaxX, bMaxY) (ox, oy) screenW screenH).1
    ∧ (moveBox (bMinX, bMinY, bMaxX, bMaxY) (ox, oy) screenW screenH).2.2.1 ≤ screenW
    ∧ 0 ≤ (moveBox (bMinX, bMinY, bMaxX, bMaxY) (ox, oy) screenW screenH).2.1
    ∧ (moveBox (bMinX, bMinY, bMaxX, bMaxY) (ox, oy) screenW screenH).2.2.2 ≤ screenH
    ∧ (screenW < bMaxX + ox →
        (moveBox (bMinX, bMinY, bMaxX, bMaxY) (ox, oy) screenW screenH).2.2.1 = screenW)
    ∧ (bMinX + ox < 0 →
        (moveBox (bMinX, bMinY, bMaxX, bMaxY) (ox, oy) screenW screenH).1 = 0)
    ∧ (screenH < bMaxY + oy →
        (moveBox (bMinX, bMinY, bMaxX, bMaxY) (ox, oy) screenW screenH).2.2.2 = screenH)
    ∧ (bMinY + oy < 0 →
        (moveBox (bMinX, bMinY, bMaxX, bMaxY) (ox, oy) screenW screenH).2.1 = 0) := by
  have hx := slide_spec bMinX bMaxX ox screenW hx0 hx1 hx2
  have hy := slide_spec bMinY bMaxY oy screenH hy0 hy1 hy2
  exact ⟨hx.1, hy.1, hx.2.1, hx.2.2.1, hy.2.1, hy.2.2.1,
    hx.2.2.2.1, hx.2.2.2.2, hy.2.2.2.1, hy.2.2.2.2⟩

/-- Witness for `c7_move_crop_region`: the region `(10,20)-(110,80)` moved by
`(+300,−50)` inside a `200×100` viewport slides into the bottom-right/top
boundaries keeping its `100×60` size. -/
theorem c7_move_crop_region_witness :
    ((moveBox (10, 20, 110, 80) (300, -50) 200 100).2.2.1
        - (moveBox (10, 20, 110, 80) (300, -50) 200 100).1 = (110 : ℚ) - 10)
    ∧ ((moveBox (10, 20, 110, 80) (300, -50) 200 100).2.2.2
        - (moveBox (10, 20, 110, 80) (300, -50) 200 100).2.1 = (80 : ℚ) - 20)
    ∧ 0 ≤ (moveBox (10, 20, 110, 80) (300, -50) 200 100).1
    ∧ (moveBox (10, 20, 110, 80) (300, -50) 200 100).2.2.1 ≤ (200 : ℚ)
    ∧ 0 ≤ (moveBox (10, 20, 110, 80) (300, -50) 200 100).2.1
    ∧ (moveBox (10, 20, 110, 80) (300, -50) 200 100).2.2.2 ≤ (100 : ℚ)
    ∧ ((200 : ℚ) < 110 + 300 →
        (moveBox (10, 20, 110, 80) (300, -50) 200 100).2.2.1 = 200)
    ∧ ((10 : ℚ) + 300 < 0 →
        (moveBox (10, 20, 110, 80) (300, -50) 200 100).1 = 0)
    ∧ ((100 : ℚ) < 80 + -50 →
        (moveBox (10, 20, 110, 80) (300, -50) 200 100).2.2.2 = 100)
    ∧ ((20 : ℚ) + -50 < 0 →
        (moveBox (10, 20, 110, 80) (300, -50) 200 100).2.1 = 0) :=
  c7_move_crop_region 10 20 110 80 300 (-50) 200 100
    (by norm_num) (by norm_num) (by norm_num) (by norm_num) (by norm_num) (by norm_num)

/-! ## Hit testing (`fn hit_test_element`) -/

/-- The text bounding box of the hit test: width is the widest line's
`len × font_size × 0.6` floored at `100`, height is `font_size × 1.2` per
line.  (The source measures a line by its byte length; the Lean `String`
length is the character count, which agrees on ASCII and only changes the
box size, not the properties proved here.) -/
def textBoxSize (content : String) (fontSize : ℚ) : ℚ × ℚ :=
  let lines := content.splitOn "\n"
  let maxLineWidth :=
    lines.foldl (fun acc l => max acc ((l.length : ℚ) * fontSize * (3 / 5))) 0
  (max maxLineWidth 100, fontSize * (6 / 5) * (lines.length : ℚ))

/-- `fn hit_test_element`.  The arrow case compares
`sqrt distSq ≤ threshold` in the source (and divides by
`length * length = lengthSq`), embedded squared; the zero-length test
`length == 0.0` is `lengthSq = 0`. -/
def hitTestElement (pos : Pt) : DrawingElement → Bool
  | .rectangle start endp _ _ =>
      decide (min start.1 endp.1 ≤ pos.1) && decide (pos.1 ≤ max start.1 endp.1)
        && decide (min start.2 endp.2 ≤ pos.2) && decide (pos.2 ≤ max start.2 endp.2)
  | .circle center radiusX radiusY _ _ =>
      if radiusX ≤ 0 ∨ radiusY ≤ 0 then false
      else
        let dx := pos.1 - center.1
        let dy := pos.2 - center.2
        let nx := dx / radiusX
        let ny := dy / radiusY
        decide (nx * nx + ny * ny ≤ 1)
  | .arrow start endp _ _ =>
      let dx := endp.1 - start.1
      let dy := endp.2 - start.2
      let lengthSq := dx * dx + dy * dy
      if lengthSq = 0 then false
      else
        let tclamped :=
          min (max (((pos.1 - start.1) * dx + (pos.2 - start.2) * dy) / lengthSq) 0) 1
        let closestX := start.1 + tclamped * dx
        let closestY := start.2 + tclamped * dy
        decide ((pos.1 - closestX) ^ 2 + (pos.2 - closestY) ^ 2 ≤ 10 * 10)
  | .pen .. => false
  | .text position content _ fontSize _ _ =>
      if content.isEmpty then false
      else
        decide (position.1 ≤ pos.1)
          && decide (pos.1 ≤ position.1 + (textBoxSize content fontSize).1)
          && decide (position.2 ≤ pos.2)
          && decide (pos.2 ≤ position.2 + (textBoxSize content fontSize).2)

/-! ## C9 — centre always hits, far-outside never hits -/

/-- C9.  For committed rectangles, ellipses and texts (committed ellipses
have positive radii, committed texts have non-empty content and positive
font size): the geometric centre of the element always hit-tests true, and
any pointer strictly outside the element's bounding box hit-tests false. -/
theorem c9_hit_test_center_outside :
    (∀ start endp : Pt, ∀ c t,
        hitTestElement ((min start.1 endp.1 + max start.1 endp.1) / 2,
            (min start.2 endp.2 + max start.2 endp.2) / 2)
          (DrawingElement.rectangle start endp c t) = true)
    ∧ (∀ start endp : Pt, ∀ c t, ∀ p : Pt,
        (p.1 < min start.1 endp.1 ∨ max start.1 endp.1 < p.1
          ∨ p.2 < min start.2 endp.2 ∨ max start.2 endp.2 < p.2) →
        hitTestElement p (DrawingElement.rectangle start endp c t) = false)
    ∧ (∀ center : Pt, ∀ rx ry c t, 0 < rx → 0 < ry →
        hitTestElement center (DrawingElement.circle center rx ry c t) = true)
    ∧ (∀ center : Pt, ∀ rx ry c t, ∀ p : Pt,
        (rx < |p.1 - center.1| ∨ ry < |p.2 - center.2|) →
        hitTestElement p (DrawingElement.circle center rx ry c t) = false)
    ∧ (∀ position : Pt, ∀ content c fs (ed : Bool) rot, content ≠ "" → 0 < fs →
        hitTestElement (position.1 + (textBoxSize content fs).1 / 2,
            position.2 + (textBoxSize content fs).2 / 2)
          (DrawingElement.text position content c fs ed rot) = true)
    ∧ (∀ position : Pt, ∀ content c fs (ed : Bool) rot, ∀ p : Pt,
        (p.1 < position.1 ∨ position.1 + (textBoxSize content fs).1 < p.1
          ∨ p.2 < position.2 ∨ position.2 + (textBoxSize content fs).2 < p.2) →
        hitTestElement p (DrawingElement.text position content c fs ed rot) = false) := by
  refine ⟨?_, ?_, ?_, ?_, ?_, ?_⟩
  · intro start endp c t
    have hx := min_le_max (a := start.1) (b := endp.1)
    have hy := min_le_max (a := start.2) (b := endp.2)
    simp only [hitTestElement, Bool.and_eq_true, decide_eq_true_eq]
    refine ⟨⟨⟨?_, ?_⟩, ?_⟩, ?_⟩ <;> dsimp only <;> linarith
  · intro start endp c t p hout
    rw [Bool.eq_false_iff]
    simp only [ne_eq, hitTestElement, Bool.and_eq_true, decide_eq_true_eq]
    rintro ⟨⟨⟨ha, hb⟩, hc⟩, hd⟩
    rcases hout with h | h | h | h <;> linarith
  · intro center rx ry c t hrx hry
    simp only [hitTestElement]
    rw [if_neg (by push_neg; exact ⟨hrx, hry⟩)]
    simp
  · intro center rx ry c t p hout
    simp only [hitTestElement]
    by_cases hdeg : rx ≤ 0 ∨ ry ≤ 0
    · rw [if_pos hdeg]
    · rw [if_neg hdeg]
      push_neg at hdeg
      obtain ⟨hrx, hry⟩ := hdeg
      rw [Bool.eq_false_iff]
      simp only [ne_eq, decide_eq_true_eq]
      intro hin
      have hnx : 0 ≤ (p.1 - center.1) / rx * ((p.1 - center.1) / rx) :=
        mul_self_nonneg _
      have hny : 0 ≤ (p.2 - center.2) / ry * ((p.2 - center.2) / ry) :=
        mul_self_nonneg _
      rcases hout with h | h
      · have habs : rx * rx < (p.1 - center.1) * (p.1 - center.1) := by
          calc rx * rx < |p.1 - center.1| * |p.1 - center.1| :=
                mul_self_lt_mul_self hrx.le h
            _ = (p.1 - center.1) * (p.1 - center.1) := abs_mul_abs_self _
        have hone : 1 < (p.1 - center.1) / rx * ((p.1 - center.1) / rx) := by
          rw [div_mul_div_comm]
          rw [lt_div_iff (by positivity)]
          linarith
        linarith
      · have habs : ry * ry < (p.2 - center.2) * (p.2 - center.2) := by
          calc ry * ry < |p.2 - center.2| * |p.2 - center.2| :=
                mul_self_lt_mul_self hry.le h
            _ = (p.2 - center.2) * (p.2 - center.2) := abs_mul_abs_self _
        have hone : 1 < (p.2 - center.2) / ry * ((p.2 - center.2) / ry) := by
          rw [div_mul_div_comm]
          rw [lt_div_iff (by positivity)]
          linarith
        linarith
  · intro position content c fs ed rot hne hfs
    have hw : (100 : ℚ) ≤ (textBoxSize content fs).1 := le_max_right _ _
    have hh : 0 ≤ (textBoxSize content fs).2 := by
      unfold textBoxSize
      dsimp only
      positivity
    simp only [hitTestElement]
    rw [if_neg (by simpa [String.isEmpty_iff] using hne)]
    simp only [Bool.and_eq_true, decide_eq_true_eq]
    refine ⟨⟨⟨?_, ?_⟩, ?_⟩, ?_⟩ <;> dsimp only <;> linarith
  · intro position content c fs ed rot p hout
    simp only [hitTestElement]
    by_cases hemp : content.isEmpty
    · rw [if_pos hemp]
    · rw [if_neg hemp]
      rw [Bool.eq_false_iff]
      simp only [ne_eq, Bool.and_eq_true, decide_eq_true_eq]
      rintro ⟨⟨⟨ha, hb⟩, hc⟩, hd⟩
      rcases hout with h | h | h | h <;> linarith

/-- Witness for `c9_hit_test_center_outside`: the centre `(20,15)` of the
committed ellipse at `(20,15)` with radii `12 × 11` hits, and the pointer
`(500,500)` far outside the rectangle `(50,50)-(150,120)` misses. -/
theorem c9_hit_test_center_outside_witness :
    hitTestElement (20, 15) (DrawingElement.circle (20, 15) 12 11 RED 2) = true
    ∧ hitTestElement (500, 500) (DrawingElement.rectangle (50, 50) (150, 120) RED 2) = false :=
  ⟨c9_hit_test_center_outside.2.2.1 (20, 15) 12 11 RED 2 (by norm_num) (by norm_num),
   c9_hit_test_center_outside.2.1 (50, 50) (150, 120) RED 2 (500, 500)
     (by right; left; norm_num)⟩

/-! ## C10 — zero-length arrows never hit -/

/-- C10.  An arrow whose start equals its end has squared length `0`; the
hit test checks this (`length == 0.0` in the source) *before* forming
`t = ((pos−start)·d) / length²`, so it returns `false` for every pointer and
the closest-point computation never divides by zero. -/
theorem c10_zero_length_arrow_no_hit (start endp : Pt) (c : Color) (t : ℚ)
    (pos : Pt) (h : endp = start) :
    hitTestElement pos (DrawingElement.arrow start endp c t) = false := by
  subst h
  simp [hitTestElement]

/-- Witness for `c10_zero_length_arrow_no_hit` at the degenerate arrow
`(5,5)-(5,5)` probed at `(999,999)` (and even at the arrow's own point). -/
theorem c10_zero_length_arrow_no_hit_witness :
    hitTestElement (999, 999) (DrawingElement.arrow (5, 5) (5, 5) RED 2) = false
    ∧ hitTestElement (5, 5) (DrawingElement.arrow (5, 5) (5, 5) RED 2) = false :=
  ⟨c10_zero_length_arrow_no_hit (5, 5) (5, 5) RED 2 (999, 999) rfl,
   c10_zero_length_arrow_no_hit (5, 5) (5, 5) RED 2 (5, 5) rfl⟩

/-! ## C8 — geometry cache: fingerprint rendering

`fn generate_element_cache_key` builds the fingerprint with `format!`,
printing every numeric field with Rust's `Display` and joining the pieces
with `_`.  `Display` of `f32` is injective on values (shortest round-trip
printing) and emits only digits, `-`, `.` and `e`; the embedding renders the
exact rational as `num/den` decimal digits, with the same two load-bearing
properties: injectivity, and never emitting the `_` separator. -/

/-- Decimal digit character (only applied to values `< 10`). -/
def digitChar : ℕ → Char
  | 0 => '0'
  | 1 => '1'
  | 2 => '2'
  | 3 => '3'
  | 4 => '4'
  | 5 => '5'
  | 6 => '6'
  | 7 => '7'
  | 8 => '8'
  | _ => '9'

/-- Inverse of `digitChar` on decimal digits. -/
def charDigit : Char → ℕ
  | '0' => 0
  | '1' => 1
  | '2' => 2
  | '3' => 3
  | '4' => 4
  | '5' => 5
  | '6' => 6
  | '7' => 7
  | '8' => 8
  | _ => 9

/-- Little-endian decimal digits of `n` (the fuel argument only bounds the
recursion; it is always instantiated with `n` itself). -/
def natCharsAux : ℕ → ℕ → List Char
  | 0, _ => []
  | _ + 1, 0 => []
  | fuel + 1, n + 1 => digitChar ((n + 1) % 10) :: natCharsAux fuel ((n + 1) / 10)

/-- Big-endian decimal rendering of a natural number. -/
def natChars (n : ℕ) : List Char :=
  if n = 0 then ['0'] else (natCharsAux n n).reverse

/-- Decimal rendering of an integer with a leading `-` sign when negative. -/
def intChars (i : ℤ) : List Char :=
  if i < 0 then '-' :: natChars i.natAbs else natChars i.natAbs

/-- Rendering of one numeric cache-key field, `num/den` in decimal. -/
def ratChars (q : ℚ) : List Char := intChars q.num ++ '/' :: natChars q.den

/-- Value of a little-endian decimal digit list. -/
def natValLE : List Char → ℕ
  | [] => 0
  | c :: cs => charDigit c + 10 * natValLE cs

lemma charDigit_digitChar {d : ℕ} (h : d < 10) : charDigit (digitChar d) = d := by
  interval_cases d <;> rfl

lemma natValLE_natCharsAux (fuel : ℕ) :
    ∀ n, n ≤ fuel → natValLE (natCharsAux fuel n) = n := by
  induction fuel with
  | zero =>
      intro n hn
      have hz : n = 0 := by omega
      subst hz
      rfl
  | succ fuel ih =>
      intro n hn
      cases n with
      | zero => rfl
      | succ m =>
          show natValLE (digitChar ((m + 1) % 10) :: natCharsAux fuel ((m + 1) / 10))
            = m + 1
          rw [natValLE, charDigit_digitChar (Nat.mod_lt _ (by norm_num)),
            ih ((m + 1) / 10) (by omega)]
          omega

lemma natValLE_natChars_reverse (n : ℕ) : natValLE (natChars n).reverse = n := by
  by_cases hn : n = 0
  · subst hn; rfl
  · rw [natChars, if_neg hn, List.reverse_reverse]
    exact natValLE_natCharsAux n n (le_refl n)

lemma natChars_injective : Function.Injective natChars := by
  intro a b h
  have hval := congrArg (fun cs => natValLE cs.reverse) h
  simpa [natValLE_natChars_reverse] using hval

/-- The ten decimal digit characters. -/
def digitCharsList : List Char := ['0', '1', '2', '3', '4', '5', '6', '7', '8', '9']

lemma digitChar_mem_digitCharsList (d : ℕ) : digitChar d ∈ digitCharsList := by
  rcases d with _ | _ | _ | _ | _ | _ | _ | _ | _ | d
  · decide
  · decide
  · decide
  · decide
  · decide
  · decide
  · decide
  · decide
  · decide
  · exact (by decide : ('9' : Char) ∈ digitCharsList)

lemma mem_natCharsAux (fuel : ℕ) :
    ∀ n, ∀ c ∈ natCharsAux fuel n, c ∈ digitCharsList := by
  induction fuel with
  | zero => intro n c hc; simp [natCharsAux] at hc
  | succ fuel ih =>
      intro n c hc
      cases n with
      | zero => simp [natCharsAux] at hc
      | succ m =>
          rw [natCharsAux] at hc
          rcases List.mem_cons.mp hc with h | h
          · subst h; exact digitChar_mem_digitCharsList _
          · exact ih _ c h

lemma mem_natChars {n : ℕ} {c : Char} (h : c ∈ natChars n) : c ∈ digitCharsList := by
  unfold natChars at h
  split_ifs at h with hz
  · simp at h; subst h; decide
  · rw [List.mem_reverse] at h
    exact mem_natCharsAux n n c h

lemma mem_intChars {i : ℤ} {c : Char} (h : c ∈ intChars i) :
    c = '-' ∨ c ∈ digitCharsList := by
  unfold intChars at h
  split_ifs at h
  · rcases List.mem_cons.mp h with h | h
    · exact Or.inl h
    · exact Or.inr (mem_natChars h)
  · exact Or.inr (mem_natChars h)

lemma mem_ratChars {q : ℚ} {c : Char} (h : c ∈ ratChars q) :
    c = '-' ∨ c = '/' ∨ c ∈ digitCharsList := by
  unfold ratChars at h
  rcases List.mem_append.mp h with h | h
  · rcases mem_intChars h with h | h
    · exact Or.inl h
    · exact Or.inr (Or.inr h)
  · rcases List.mem_cons.mp h with h | h
    · exact Or.inr (Or.inl h)
    · exact Or.inr (Or.inr (mem_natChars h))

lemma underscore_not_mem_ratChars (q : ℚ) : '_' ∉ ratChars q := by
  intro h
  rcases mem_ratChars h with h | h | h
  · exact absurd h (by decide)
  · exact absurd h (by decide)
  · exact absurd h (by decide)

lemma slash_not_mem_intChars (i : ℤ) : '/' ∉ intChars i := by
  intro h
  rcases mem_intChars h with h | h
  · exact absurd h (by decide)
  · exact absurd h (by decide)

lemma natChars_ne_nil (n : ℕ) : natChars n ≠ [] := by
  unfold natChars
  split_ifs with h
  · simp
  · intro hc
    rw [List.reverse_eq_nil_iff] at hc
    cases n with
    | zero => exact h rfl
    | succ m => simp [natCharsAux] at hc

lemma ratChars_ne_nil (q : ℚ) : ratChars q ≠ [] := by
  unfold ratChars
  intro h
  rcases List.append_eq_nil.mp h with ⟨_, h2⟩
  simp at h2

lemma intChars_injective : Function.Injective intChars := by
  intro a b h
  unfold intChars at h
  split_ifs at h with ha hb
  · injection h with _ h2
    have := natChars_injective h2
    omega
  · exfalso
    have hm : '-' ∈ natChars b.natAbs := h ▸ List.mem_cons_self _ _
    exact absurd (mem_natChars hm) (by decide)
  · exfalso
    have hm : '-' ∈ natChars a.natAbs := h.symm ▸ List.mem_cons_self _ _
    exact absurd (mem_natChars hm) (by decide)
  · have := natChars_injective h
    omega

/-- Splitting a `sep`-joined concatenation at a separator absent from both
left parts is unambiguous. -/
lemma sep_split (c : Char) :
    ∀ l₁ l₂ r₁ r₂ : List Char, c ∉ l₁ → c ∉ l₂ →
      l₁ ++ c :: r₁ = l₂ ++ c :: r₂ → l₁ = l₂ ∧ r₁ = r₂ := by
  intro l₁
  induction l₁ with
  | nil =>
      intro l₂ r₁ r₂ h₁ h₂ he
      cases l₂ with
      | nil =>
          rw [List.nil_append, List.nil_append] at he
          injection he with _ h2
          exact ⟨rfl, h2⟩
      | cons b t =>
          exfalso
          rw [List.nil_append, List.cons_append] at he
          injection he with h1 _
          subst h1
          exact h₂ (List.mem_cons_self _ _)
  | cons a t ih =>
      intro l₂ r₁ r₂ h₁ h₂ he
      cases l₂ with
      | nil =>
          exfalso
          rw [List.nil_append, List.cons_append] at he
          injection he with h1 _
          subst h1
          exact h₁ (List.mem_cons_self _ _)
      | cons b u =>
          rw [List.cons_append, List.cons_append] at he
          injection he with h1 h2
          subst h1
          have ht : c ∉ t := fun hc => h₁ (List.mem_cons_of_mem _ hc)
          have hu : c ∉ u := fun hc => h₂ (List.mem_cons_of_mem _ hc)
          obtain ⟨e1, e2⟩ := ih u r₁ r₂ ht hu h2
          exact ⟨by rw [e1], e2⟩

/-- Splitting at the last separator: unambiguous when the separator is
absent from both right parts. -/
lemma sep_split_right (c : Char) (l₁ l₂ r₁ r₂ : List Char)
    (h₁ : c ∉ r₁) (h₂ : c ∉ r₂) (he : l₁ ++ c :: r₁ = l₂ ++ c :: r₂) :
    l₁ = l₂ ∧ r₁ = r₂ := by
  have hrev : r₁.reverse ++ c :: l₁.reverse = r₂.reverse ++ c :: l₂.reverse := by
    have hc := congrArg List.reverse he
    simpa [List.reverse_append] using hc
  obtain ⟨e1, e2⟩ := sep_split c _ _ _ _
    (fun hc => h₁ (List.mem_reverse.mp hc)) (fun hc => h₂ (List.mem_reverse.mp hc)) hrev
  exact ⟨List.reverse_injective e2, List.reverse_injective e1⟩

lemma ratChars_injective : Function.Injective ratChars := by
  intro a b h
  unfold ratChars at h
  obtain ⟨h1, h2⟩ := sep_split '/' _ _ _ _
    (slash_not_mem_intChars a.num) (slash_not_mem_intChars b.num) h
  have hnum := intChars_injective h1
  have hden := natChars_injective h2
  exact Rat.ext hnum hden

/-- Rust's `join("_")` over string pieces. -/
def joinSep : List (List Char) → List Char
  | [] => []
  | [t] => t
  | t :: u :: ts => t ++ '_' :: joinSep (u :: ts)

lemma joinSep_ne_nil (t : List Char) (ts : List (List Char)) (ht : t ≠ []) :
    joinSep (t :: ts) ≠ [] := by
  cases ts with
  | nil => simpa [joinSep] using ht
  | cons u us => simp [joinSep]

/-- `join("_")` is injective on lists of non-empty pieces that do not contain
the separator, the length of the list included. -/
lemma joinSep_inj :
    ∀ ts₁ ts₂ : List (List Char),
      (∀ t ∈ ts₁, t ≠ [] ∧ '_' ∉ t) → (∀ t ∈ ts₂, t ≠ [] ∧ '_' ∉ t) →
      joinSep ts₁ = joinSep ts₂ → ts₁ = ts₂ := by
  intro ts₁
  induction ts₁ with
  | nil =>
      intro ts₂ h₁ h₂ he
      cases ts₂ with
      | nil => rfl
      | cons t ts =>
          exact absurd he.symm (joinSep_ne_nil t ts (h₂ t (List.mem_cons_self _ _)).1)
  | cons t₁ rest₁ ih =>
      intro ts₂ h₁ h₂ he
      cases ts₂ with
      | nil => exact absurd he (joinSep_ne_nil t₁ rest₁ (h₁ t₁ (List.mem_cons_self _ _)).1)
      | cons t₂ rest₂ =>
          cases rest₁ with
          | nil =>
              cases rest₂ with
              | nil =>
                  simp only [joinSep] at he
                  rw [he]
              | cons u₂ us₂ =>
                  exfalso
                  simp only [joinSep] at he
                  have hmem : '_' ∈ t₁ := by
                    rw [he]
                    exact List.mem_append_right _ (List.mem_cons_self _ _)
                  exact (h₁ t₁ (List.mem_cons_self _ _)).2 hmem
          | cons u₁ us₁ =>
              cases rest₂ with
              | nil =>
                  exfalso
                  simp only [joinSep] at he
                  have hmem : '_' ∈ t₂ := by
                    rw [← he]
                    exact List.mem_append_right _ (List.mem_cons_self _ _)
                  exact (h₂ t₂ (List.mem_cons_self _ _)).2 hmem
              | cons u₂ us₂ =>
                  simp only [joinSep] at he
                  obtain ⟨e1, e2⟩ := sep_split '_' t₁ t₂ _ _
                    (h₁ t₁ (List.mem_cons_self _ _)).2 (h₂ t₂ (List.mem_cons_self _ _)).2 he
                  have hrest := ih (u₂ :: us₂)
                    (fun t ht => h₁ t (List.mem_cons_of_mem _ ht))
                    (fun t ht => h₂ t (List.mem_cons_of_mem _ ht)) e2
                  rw [e1, hrest]

lemma ratChars_tokens_ok (qs : List ℚ) :
    ∀ t ∈ qs.map ratChars, t ≠ [] ∧ '_' ∉ t := by
  intro t ht
  rw [List.mem_map] at ht
  obtain ⟨q, _, rfl⟩ := ht
  exact ⟨ratChars_ne_nil q, underscore_not_mem_ratChars q⟩

lemma joinSep_map_ratChars_inj (qs₁ qs₂ : List ℚ)
    (h : joinSep (qs₁.map ratChars) = joinSep (qs₂.map ratChars)) : qs₁ = qs₂ := by
  have hmap := joinSep_inj _ _ (ratChars_tokens_ok qs₁) (ratChars_tokens_ok qs₂) h
  exact List.map_injective_iff.mpr ratChars_injective hmap

/-- `fn generate_element_cache_key`, modelled at the character-list level
(`String` in the source; `String` and `List Char` are in canonical
bijection).  Each arm is the `format!` of the source: a variant tag, then
the underscore-join of the decimal renderings of every numeric field; the
pen key joins `x_y` pairs of all points, the text key embeds the raw content
between the position and the colour fields.  `is_editing` and `rotation` are
*not* part of the text key (they do not affect the generated vertices). -/
def genKey : DrawingElement → List Char
  | .rectangle start endp c t =>
      'r' :: 'e' :: 'c' :: 't' :: '_' ::
        joinSep ([start.1, start.2, endp.1, endp.2, c.r, c.g, c.b, t].map ratChars)
  | .circle center rx ry c t =>
      'c' :: 'i' :: 'r' :: 'c' :: 'l' :: 'e' :: '_' ::
        joinSep ([center.1, center.2, rx, ry, c.r, c.g, c.b, t].map ratChars)
  | .arrow start endp c t =>
      'a' :: 'r' :: 'r' :: 'o' :: 'w' :: '_' ::
        joinSep ([start.1, start.2, endp.1, endp.2, c.r, c.g, c.b, t].map ratChars)
  | .pen points c t =>
      'p' :: 'e' :: 'n' :: '_' ::
        (joinSep (points.map fun p => ratChars p.1 ++ '_' :: ratChars p.2)
          ++ '_' :: joinSep ([c.r, c.g, c.b, t].map ratChars))
  | .text position content c fs _ _ =>
      't' :: 'e' :: 'x' :: 't' :: '_' ::
        (ratChars position.1 ++ '_' :: (ratChars position.2 ++ '_' ::
          (content.data ++ '_' :: joinSep ([c.r, c.g, c.b, fs].map ratChars))))

/-- The pen points hash flattened into its individual coordinate tokens. -/
def penTokens : List Pt → List (List Char)
  | [] => []
  | p :: ps => ratChars p.1 :: ratChars p.2 :: penTokens ps

lemma penTokens_ok (ps : List Pt) : ∀ t ∈ penTokens ps, t ≠ [] ∧ '_' ∉ t := by
  induction ps with
  | nil => intro t ht; simp [penTokens] at ht
  | cons p ps ih =>
      intro t ht
      rcases List.mem_cons.mp ht with h | h
      · subst h; exact ⟨ratChars_ne_nil _, underscore_not_mem_ratChars _⟩
      · rcases List.mem_cons.mp h with h | h
        · subst h; exact ⟨ratChars_ne_nil _, underscore_not_mem_ratChars _⟩
        · exact ih t h

lemma penTokens_inj : ∀ ps₁ ps₂ : List Pt, penTokens ps₁ = penTokens ps₂ → ps₁ = ps₂ := by
  intro ps₁
  induction ps₁ with
  | nil =>
      intro ps₂ h
      cases ps₂ with
      | nil => rfl
      | cons q qs => simp [penTokens] at h
  | cons p ps ih =>
      intro ps₂ h
      cases ps₂ with
      | nil => simp [penTokens] at h
      | cons q qs =>
          simp only [penTokens, List.cons.injEq] at h
          obtain ⟨h1, h2, h3⟩ := h
          rw [ih qs h3, Prod.ext (ratChars_injective h1) (ratChars_injective h2)]

/-- The underscore-join of the `x_y` point pairs coincides with the join of
the flattened coordinate tokens. -/
lemma joinSep_pairs_eq_penTokens (ps : List Pt) :
    joinSep (ps.map fun p => ratChars p.1 ++ '_' :: ratChars p.2)
      = joinSep (penTokens ps) := by
  induction ps with
  | nil => rfl
  | cons p ps ih =>
      cases ps with
      | nil => rfl
      | cons q qs =>
          simp only [List.map_cons, joinSep, penTokens] at ih ⊢
          rw [ih]
          simp [List.append_assoc]

/-! ### The uncached tessellation (`fn add_element_vertices_uncached`)

Erratic transcendentals are parameters: `cosv i`/`sinv i` stand for
`cos (i * 2π/32)`/`sin (i * 2π/32)` of the ellipse loop and `sqrtv` for
`f32::sqrt` of the arrow head; the cache claims hold for *every* choice of
these functions, so nothing is assumed about them. -/

/-- One line segment pushed into the vertex buffer:
`[sx, sy, r, g, b, 1.0, thickness, ex, ey, r, g, b, 1.0, thickness]`. -/
def segVerts (sx sy ex ey : ℚ) (c : Color) (t : ℚ) : List ℚ :=
  [sx, sy, c.r, c.g, c.b, 1, t, ex, ey, c.r, c.g, c.b, 1, t]

/-- `for i in 0..n { vertices.extend(f i) }`. -/
def loopSegs (f : ℕ → List ℚ) : ℕ → List ℚ
  | 0 => []
  | n + 1 => loopSegs f n ++ f n

/-- The pen loop over consecutive point pairs
(`for i in 0..len-1 { segment points[i] → points[i+1] }`). -/
def penSegs (screenW screenH : ℚ) (c : Color) (t : ℚ) : List Pt → List ℚ
  | p :: q :: rest =>
      segVerts ((p.1 / screenW) * 2 - 1) (1 - (p.2 / screenH) * 2)
        ((q.1 / screenW) * 2 - 1) (1 - (q.2 / screenH) * 2) c t
        ++ penSegs screenW screenH c t (q :: rest)
  | _ => []

/-- `fn add_element_vertices_uncached`: rectangle = 4 edge segments in NDC;
ellipse = 32-segment polygon; arrow = shaft plus (when `len² > 1`) two head
segments from the unit direction; pen = one segment per consecutive pair;
text = no segments (rendered by the external text pass). -/
def addElementVerticesUncached (screenW screenH : ℚ) (cosv sinv : ℕ → ℚ)
    (sqrtv : ℚ → ℚ) : DrawingElement → List ℚ
  | .rectangle start endp c t =>
      let x1 := (start.1 / screenW) * 2 - 1
      let y1 := 1 - (start.2 / screenH) * 2
      let x2 := (endp.1 / screenW) * 2 - 1
      let y2 := 1 - (endp.2 / screenH) * 2
      segVerts x1 y1 x2 y1 c t ++ segVerts x2 y1 x2 y2 c t
        ++ segVerts x2 y2 x1 y2 c t ++ segVerts x1 y2 x1 y1 c t
  | .circle center rx ry c t =>
      let cx := (center.1 / screenW) * 2 - 1
      let cy := 1 - (center.2 / screenH) * 2
      let rX := rx / screenW * 2
      let rY := ry / screenH * 2
      loopSegs (fun i =>
        segVerts (cx + rX * cosv i) (cy + rY * sinv i)
          (cx + rX * cosv (i + 1)) (cy + rY * sinv (i + 1)) c t) 32
  | .arrow start endp c t =>
      let x1 := (start.1 / screenW) * 2 - 1
      let y1 := 1 - (start.2 / screenH) * 2
      let x2 := (endp.1 / screenW) * 2 - 1
      let y2 := 1 - (endp.2 / screenH) * 2
      let dx := endp.1 - start.1
      let dy := endp.2 - start.2
      let lenSquared := dx * dx + dy * dy
      segVerts x1 y1 x2 y2 c t ++
        (if 1 < lenSquared then
          let len := sqrtv lenSquared
          let ux := dx / len
          let uy := dy / len
          let p1x := endp.1 - 15 * ux + 8 * uy
          let p1y := endp.2 - 15 * uy - 8 * ux
          let p2x := endp.1 - 15 * ux - 8 * uy
          let p2y := endp.2 - 15 * uy + 8 * ux
          segVerts x2 y2 ((p1x / screenW) * 2 - 1) (1 - (p1y / screenH) * 2) c t
            ++ segVerts x2 y2 ((p2x / screenW) * 2 - 1) (1 - (p2y / screenH) * 2) c t
        else [])
  | .pen points c t => penSegs screenW screenH c t points
  | .text .. => []

/-- Equal cache keys force equal tessellations: the key determines the
variant (distinct leading tags) and every field the tessellation reads
(`is_editing`/`rotation` are absent from both the text key and the text
tessellation). -/
lemma genKey_determines_vertices (screenW screenH : ℚ) (cosv sinv : ℕ → ℚ)
    (sqrtv : ℚ → ℚ) (e₁ e₂ : DrawingElement) (h : genKey e₁ = genKey e₂) :
    addElementVerticesUncached screenW screenH cosv sinv sqrtv e₁
      = addElementVerticesUncached screenW screenH cosv sinv sqrtv e₂ := by
  cases e₁ <;> cases e₂ <;> simp only [genKey] at h
  case rectangle.rectangle s₁ e₁ c₁ t₁ s₂ e₂ c₂ t₂ =>
      simp only [List.cons.injEq, true_and] at h
      have hfields := joinSep_map_ratChars_inj _ _ h
      simp only [List.cons.injEq, and_true] at hfields
      obtain ⟨h1, h2, h3, h4, h5, h6, h7, h8⟩ := hfields
      obtain ⟨sa, sb⟩ := s₁
      obtain ⟨sc, sd⟩ := s₂
      obtain ⟨ea, eb⟩ := e₁
      obtain ⟨ec, ed⟩ := e₂
      obtain ⟨cr, cg, cb⟩ := c₁
      obtain ⟨cr', cg', cb'⟩ := c₂
      simp only at h1 h2 h3 h4 h5 h6 h7 h8
      subst h1 h2 h3 h4 h5 h6 h7 h8
      rfl
  case circle.circle ce₁ rx₁ ry₁ c₁ t₁ ce₂ rx₂ ry₂ c₂ t₂ =>
      simp only [List.cons.injEq, true_and] at h
      have hfields := joinSep_map_ratChars_inj _ _ h
      simp only [List.cons.injEq, and_true] at hfields
      obtain ⟨h1, h2, h3, h4, h5, h6, h7, h8⟩ := hfields
      obtain ⟨ca, cbb⟩ := ce₁
      obtain ⟨cc, cd⟩ := ce₂
      obtain ⟨cr, cg, cb⟩ := c₁
      obtain ⟨cr', cg', cb'⟩ := c₂
      simp only at h1 h2 h3 h4 h5 h6 h7 h8
      subst h1 h2 h3 h4 h5 h6 h7 h8
      rfl
  case arrow.arrow s₁ e₁ c₁ t₁ s₂ e₂ c₂ t₂ =>
      simp only [List.cons.injEq, true_and] at h
      have hfields := joinSep_map_ratChars_inj _ _ h
      simp only [List.cons.injEq, and_true] at hfields
      obtain ⟨h1, h2, h3, h4, h5, h6, h7, h8⟩ := hfields
      obtain ⟨sa, sb⟩ := s₁
      obtain ⟨sc, sd⟩ := s₂
      obtain ⟨ea, eb⟩ := e₁
      obtain ⟨ec, ed⟩ := e₂
      obtain ⟨cr, cg, cb⟩ := c₁
      obtain ⟨cr', cg', cb'⟩ := c₂
      simp only at h1 h2 h3 h4 h5 h6 h7 h8
      subst h1 h2 h3 h4 h5 h6 h7 h8
      rfl
  case pen.pen ps₁ c₁ t₁ ps₂ c₂ t₂ =>
      simp only [List.cons.injEq, true_and] at h
      rw [joinSep_pairs_eq_penTokens, joinSep_pairs_eq_penTokens] at h
      have hreshape : ∀ A B : List Char, ∀ c0 c1 c2 tt : ℚ,
          A ++ '_' :: joinSep ([c0, c1, c2, tt].map ratChars) = B →
          (((A ++ '_' :: ratChars c0) ++ '_' :: ratChars c1) ++ '_' :: ratChars c2)
            ++ '_' :: ratChars tt = B := by
        intro A B c0 c1 c2 tt hAB
        rw [← hAB]
        simp only [List.map_cons, List.map_nil, joinSep]
        simp [List.append_assoc]
      have h' := hreshape _ _ _ _ _ _ (hreshape _ _ _ _ _ _ h.symm).symm
      obtain ⟨h1, ht⟩ := sep_split_right '_' _ _ _ _
        (underscore_not_mem_ratChars _) (underscore_not_mem_ratChars _) h'
      obtain ⟨h2, hc2⟩ := sep_split_right '_' _ _ _ _
        (underscore_not_mem_ratChars _) (underscore_not_mem_ratChars _) h1
      obtain ⟨h3, hc1⟩ := sep_split_right '_' _ _ _ _
        (underscore_not_mem_ratChars _) (underscore_not_mem_ratChars _) h2
      obtain ⟨h4, hc0⟩ := sep_split_right '_' _ _ _ _
        (underscore_not_mem_ratChars _) (underscore_not_mem_ratChars _) h3
      have hps := penTokens_inj _ _
        (joinSep_inj _ _ (penTokens_ok ps₁) (penTokens_ok ps₂) h4)
      obtain ⟨cr, cg, cb⟩ := c₁
      obtain ⟨cr', cg', cb'⟩ := c₂
      have e0 := ratChars_injective hc0
      have e1 := ratChars_injective hc1
      have e2 := ratChars_injective hc2
      have e3 := ratChars_injective ht
      simp only at e0 e1 e2 e3
      subst hps e0 e1 e2 e3
      rfl
  case text.text p₁ co₁ c₁ f₁ ed₁ r₁ p₂ co₂ c₂ f₂ ed₂ r₂ =>
      rfl
  all_goals
    exact absurd (List.head_eq_of_cons_eq h) (by decide)

/-! ### The geometry cache itself -/

/-- The two cache maps of the editor state:
`cached_drawing_vertices: HashMap<String, Vec<f32>>` and
`drawing_cache_valid: HashMap<String, bool>`, modelled as partial maps
keyed by the fingerprint. -/
structure GeomCache where
  cachedDrawingVertices : List Char → Option (List ℚ)
  drawingCacheValid : List Char → Option Bool

/-- Both maps start empty. -/
def emptyCache : GeomCache := ⟨fun _ => none, fun _ => none⟩

/-- `fn get_cached_element_vertices`: return the stored vertices when an
entry exists and its validity flag (`unwrap_or(false)`) is set; otherwise
recompute with the uncached tessellation and store vertices + valid flag. -/
def getCachedElementVertices (tess : DrawingElement → List ℚ) (st : GeomCache)
    (e : DrawingElement) : List ℚ × GeomCache :=
  let cacheKey := genKey e
  match st.cachedDrawingVertices cacheKey, (st.drawingCacheValid cacheKey).getD false with
  | some cachedVertices, true => (cachedVertices, st)
  | _, _ =>
      let vertices := tess e
      (vertices,
        { cachedDrawingVertices :=
            Function.update st.cachedDrawingVertices cacheKey (some vertices)
          drawingCacheValid :=
            Function.update st.drawingCacheValid cacheKey (some true) })

/-- `fn invalidate_element_cache`: flag the element's fingerprint stale
without evicting the stored vertices. -/
def invalidateElementCache (st : GeomCache) (e : DrawingElement) : GeomCache :=
  { st with
    drawingCacheValid := Function.update st.drawingCacheValid (genKey e) (some false) }

/-- `fn invalidate_drawing_cache`: `drawing_cache_valid.clear()` — every
lookup now sees `unwrap_or(false)`. -/
def invalidateDrawingCache (st : GeomCache) : GeomCache :=
  { st with drawingCacheValid := fun _ => none }

/-- `undo`/`redo` clear both maps
(`cached_drawing_vertices.clear(); drawing_cache_valid.clear()`). -/
def clearCaches (_ : GeomCache) : GeomCache := ⟨fun _ => none, fun _ => none⟩

/-- The cache history of the claim: lookups and the three invalidation
flavours, in any order. -/
inductive CacheOp where
  | lookup (e : DrawingElement)
  | invalidateElement (e : DrawingElement)
  | invalidateAll
  | clearAll

/-- Run one cache operation (a lookup's returned vertex list is dropped
here; the theorem re-runs the lookup to inspect it). -/
def applyCacheOp (tess : DrawingElement → List ℚ) (st : GeomCache) :
    CacheOp → GeomCache
  | .lookup e => (getCachedElementVertices tess st e).2
  | .invalidateElement e => invalidateElementCache st e
  | .invalidateAll => invalidateDrawingCache st
  | .clearAll => clearCaches st

/-- Cache soundness invariant: whatever is flagged valid stores exactly the
uncached tessellation of every element with that fingerprint. -/
def CacheInv (tess : DrawingElement → List ℚ) (st : GeomCache) : Prop :=
  ∀ e, (st.drawingCacheValid (genKey e)).getD false = true →
    st.cachedDrawingVertices (genKey e) = some (tess e)

lemma cacheInv_empty (tess : DrawingElement → List ℚ) : CacheInv tess emptyCache := by
  intro e hv
  simp [emptyCache] at hv

lemma cacheInv_step (tess : DrawingElement → List ℚ)
    (hk : ∀ e₁ e₂, genKey e₁ = genKey e₂ → tess e₁ = tess e₂)
    (st : GeomCache) (hinv : CacheInv tess st) (op : CacheOp) :
    CacheInv tess (applyCacheOp tess st op) := by
  cases op with
  | lookup e' =>
      simp only [applyCacheOp, getCachedElementVertices]
      cases hm : st.cachedDrawingVertices (genKey e') with
      | some v =>
          cases hvb : (st.drawingCacheValid (genKey e')).getD false with
          | true => exact hinv
          | false =>
              intro e hv
              dsimp only at hv ⊢
              by_cases hkey : genKey e = genKey e'
              · rw [hkey, Function.update_same]
                exact congrArg some (hk e' e hkey.symm)
              · rw [Function.update_noteq hkey] at hv ⊢
                exact hinv e hv
      | none =>
          cases hvb : (st.drawingCacheValid (genKey e')).getD false with
          | true =>
              intro e hv
              dsimp only at hv ⊢
              by_cases hkey : genKey e = genKey e'
              · rw [hkey, Function.update_same]
                exact congrArg some (hk e' e hkey.symm)
              · rw [Function.update_noteq hkey] at hv ⊢
                exact hinv e hv
          | false =>
              intro e hv
              dsimp only at hv ⊢
              by_cases hkey : genKey e = genKey e'
              · rw [hkey, Function.update_same]
                exact congrArg some (hk e' e hkey.symm)
              · rw [Function.update_noteq hkey] at hv ⊢
                exact hinv e hv
  | invalidateElement e' =>
      intro e hv
      simp only [applyCacheOp, invalidateElementCache] at hv ⊢
      by_cases hkey : genKey e = genKey e'
      · rw [hkey, Function.update_same] at hv
        simp at hv
      · rw [Function.update_noteq hkey] at hv
        exact hinv e hv
  | invalidateAll =>
      intro e hv
      simp [applyCacheOp, invalidateDrawingCache] at hv
  | clearAll =>
      intro e hv
      simp [applyCacheOp, clearCaches] at hv

lemma cacheInv_fold (tess : DrawingElement → List ℚ)
    (hk : ∀ e₁ e₂, genKey e₁ = genKey e₂ → tess e₁ = tess e₂)
    (ops : List CacheOp) :
    CacheInv tess (ops.foldl (applyCacheOp tess) emptyCache) := by
  have key : ∀ (l : List CacheOp) (st : GeomCache), CacheInv tess st →
      CacheInv tess (l.foldl (applyCacheOp tess) st) := by
    intro l
    induction l with
    | nil => intro st hst; exact hst
    | cons op rest ih =>
        intro st hst
        rw [List.foldl_cons]
        exact ih _ (cacheInv_step tess hk st hst op)
  exact key ops emptyCache (cacheInv_empty tess)

/-- C8.  After *any* prior history of cache lookups and invalidations,
`get_cached_element_vertices` returns exactly what the uncached
variant-specific tessellation produces for the requested element — for every
screen size and every interpretation of the trigonometric/square-root
primitives: the fingerprint never causes vertices computed for a different
element to be returned. -/
theorem c8_cache_matches_uncached (screenW screenH : ℚ) (cosv sinv : ℕ → ℚ)
    (sqrtv : ℚ → ℚ) (ops : List CacheOp) (e : DrawingElement) :
    (getCachedElementVertices (addElementVerticesUncached screenW screenH cosv sinv sqrtv)
        (ops.foldl (applyCacheOp (addElementVerticesUncached screenW screenH cosv sinv sqrtv))
          emptyCache) e).1
      = addElementVerticesUncached screenW screenH cosv sinv sqrtv e := by
  have hinv := cacheInv_fold (addElementVerticesUncached screenW screenH cosv sinv sqrtv)
    (genKey_determines_vertices screenW screenH cosv sinv sqrtv) ops
  set st := ops.foldl
    (applyCacheOp (addElementVerticesUncached screenW screenH cosv sinv sqrtv))
    emptyCache with hst
  simp only [getCachedElementVertices]
  cases hm : st.cachedDrawingVertices (genKey e) with
  | some v =>
      cases hvb : (st.drawingCacheValid (genKey e)).getD false with
      | true =>
          have hse := hinv e hvb
          rw [hm] at hse
          exact Option.some_injective _ hse
      | false => rfl
  | none => rfl

end Screenshot
